import Mathlib

/-!
Verification of the inferencia request-gateway pipeline.

This file contains a shallow embedding, in Lean 4, of the components of the
`menezmethod/inferencia` Go repository that the specification talks about:

* the per-key token-bucket rate limiter (`internal/middleware/ratelimit.go`:
  `RateLimiter.Allow`), modelled with exact rationals in place of `float64`
  and `time.Time` (all claims about it concern exact algebraic behaviour:
  zero elapsed time, integer token counts);
* the backend registry (`internal/backend/backend.go`);
* the authentication middleware and the API error constructors
  (`internal/middleware/auth.go`, `internal/apierror/error.go`);
* the canonical-logging key mask (`internal/middleware/logging.go`);
* the chat-completions handler (`internal/handler/chat.go`);
* the middleware chain of `internal/server/server.go` with Go's
  panic/recover control flow made explicit;
* the SSE streaming relay (`internal/backend/mlx.go` together with
  `handleStream` in `internal/handler/chat.go`), with Go strings modelled
  as `List Char` (one `Char` per byte of the ASCII wire format).

Go maps are modelled as association lists: a read is the first matching
entry, a write replaces the matching entry in place or appends a new one.
-/

/-- Read of a Go map modelled as an association list: `m[k]` with its
`ok` flag collapsed into `Option`. -/
def assocLookup {α : Type} : List (String × α) → String → Option α
  | [], _ => none
  | (k', v) :: rest, k => if k' = k then some v else assocLookup rest k

/-- Write to a Go map modelled as an association list: `m[k] = v` replaces
the entry for `k` if present, else adds one. -/
def assocSet {α : Type} : List (String × α) → String → α → List (String × α)
  | [], k, v => [(k, v)]
  | (k', v') :: rest, k, v =>
      if k' = k then (k, v) :: rest else (k', v') :: assocSet rest k v

theorem assocLookup_assocSet_self {α : Type} (l : List (String × α)) (k : String) (v : α) :
    assocLookup (assocSet l k v) k = some v := by
  induction l with
  | nil => simp [assocSet, assocLookup]
  | cons hd tl ih =>
      obtain ⟨k', v'⟩ := hd
      by_cases h : k' = k
      · simp [assocSet, assocLookup, h]
      · simp [assocSet, assocLookup, h, ih]

theorem assocLookup_assocSet_ne {α : Type} (l : List (String × α)) (k k' : String) (v : α)
    (h : k' ≠ k) : assocLookup (assocSet l k v) k' = assocLookup l k' := by
  have hk : ¬ k = k' := fun h' => h h'.symm
  induction l with
  | nil => simp [assocSet, assocLookup, hk]
  | cons hd tl ih =>
      obtain ⟨k₀, v₀⟩ := hd
      by_cases h₀ : k₀ = k
      · subst h₀
        simp [assocSet, assocLookup, hk]
      · simp [assocSet, assocLookup, h₀, ih]

theorem mem_assocSet {α : Type} (l : List (String × α)) (k : String) (v : α) :
    ∀ p ∈ assocSet l k v, p = (k, v) ∨ p ∈ l := by
  induction l with
  | nil =>
      intro p hp
      simp only [assocSet, List.mem_singleton] at hp
      exact Or.inl hp
  | cons hd tl ih =>
      obtain ⟨k₀, v₀⟩ := hd
      intro p hp
      by_cases h₀ : k₀ = k
      · rw [assocSet, if_pos h₀] at hp
        rcases List.mem_cons.1 hp with h | h
        · exact Or.inl h
        · exact Or.inr (List.mem_cons_of_mem _ h)
      · rw [assocSet, if_neg h₀] at hp
        rcases List.mem_cons.1 hp with h | h
        · exact Or.inr (h ▸ List.mem_cons_self _ _)
        · rcases ih p h with h' | h'
          · exact Or.inl h'
          · exact Or.inr (List.mem_cons_of_mem _ h')

theorem assocLookup_mem {α : Type} (l : List (String × α)) (k : String) (v : α)
    (h : assocLookup l k = some v) : (k, v) ∈ l := by
  induction l with
  | nil => simp [assocLookup] at h
  | cons hd tl ih =>
      obtain ⟨k₀, v₀⟩ := hd
      by_cases h₀ : k₀ = k
      · subst h₀
        rw [assocLookup, if_pos rfl] at h
        cases h
        exact List.mem_cons_self _ _
      · rw [assocLookup, if_neg h₀] at h
        exact List.mem_cons_of_mem _ (ih h)

/-! ### Admission controller: per-key token-bucket rate limiter

Source: `RateLimiter`, `bucket`, `NewRateLimiter`, `(*RateLimiter).Allow`.
`float64` token counts and wall-clock instants are modelled as `ℚ`
(instants are "seconds", so Go's `now.Sub(b.lastSeen).Seconds()` becomes
plain subtraction).  Go's `int(x)` conversion truncates toward zero and
is modelled by `ratTrunc`. -/

/-- One credential's bucket: `tokens float64; lastSeen time.Time`. -/
structure Bucket where
  tokens : ℚ
  lastSeen : ℚ
deriving DecidableEq, Repr

/-- The rate limiter: its bucket map, refill rate (tokens/second) and
burst capacity.  The mutex is a concurrency artefact with no algorithmic
content; `Allow` below is the whole critical section. -/
structure RateLimiter where
  buckets : List (String × Bucket)
  rate : ℚ
  burst : ℕ
deriving DecidableEq, Repr

/-- Go's `math.Min`, specialised to the exact rationals of this model. -/
def mathMin (a b : ℚ) : ℚ := if a ≤ b then a else b

theorem mathMin_eq_min (a b : ℚ) : mathMin a b = min a b := by
  by_cases h : a ≤ b <;> simp [mathMin, min_def, h]

/-- Go's `int(x)` conversion on a `float64`: truncation toward zero. -/
def ratTrunc (q : ℚ) : ℤ := if 0 ≤ q then q.floor else q.ceil

theorem ratTrunc_eq_floor (q : ℚ) (h : 0 ≤ q) : ratTrunc q = ⌊q⌋ := by
  rw [ratTrunc, if_pos h]
  rfl

/-- `NewRateLimiter(rps, burst)`: empty bucket map. -/
def newRateLimiter (rps : ℚ) (burst : ℕ) : RateLimiter :=
  { buckets := [], rate := rps, burst := burst }

/-- `(*RateLimiter).Allow(key)` at clock reading `now`, translated line by
line from the source: lazily create the bucket with a full burst, refill
`min(burst, tokens + elapsed*rate)`, stamp `lastSeen = now`, then either
deny `(0, false)` when under one token or consume one and return
`(int(tokens), true)`.  The updated limiter is returned alongside the
Go return values. -/
def RateLimiter.Allow (rl : RateLimiter) (key : String) (now : ℚ) :
    RateLimiter × ℤ × Bool :=
  let b := match assocLookup rl.buckets key with
    | some b => b
    | none => { tokens := (rl.burst : ℚ), lastSeen := now }
  let elapsed := now - b.lastSeen
  let tokens := mathMin (rl.burst : ℚ) (b.tokens + elapsed * rl.rate)
  if tokens < 1 then
    ({ rl with buckets := assocSet rl.buckets key { tokens := tokens, lastSeen := now } },
     0, false)
  else
    ({ rl with buckets := assocSet rl.buckets key { tokens := tokens - 1, lastSeen := now } },
     ratTrunc (tokens - 1), true)

/-- Modelled from the spec's words (§4.1 Algorithm), for the refinement half
of C1: identical prose to the source except that the admitted branch
returns `(floor(tokens), true)` where the source computes Go's `int()`
truncation. -/
def specAllow (rl : RateLimiter) (key : String) (now : ℚ) :
    RateLimiter × ℤ × Bool :=
  let b := match assocLookup rl.buckets key with
    | some b => b
    | none => { tokens := (rl.burst : ℚ), lastSeen := now }
  let elapsed := now - b.lastSeen
  let tokens := min (rl.burst : ℚ) (b.tokens + elapsed * rl.rate)
  if tokens < 1 then
    ({ rl with buckets := assocSet rl.buckets key { tokens := tokens, lastSeen := now } },
     0, false)
  else
    ({ rl with buckets := assocSet rl.buckets key { tokens := tokens - 1, lastSeen := now } },
     ⌊tokens - 1⌋, true)

/-- `k` consecutive `Allow` calls for one key on a fresh limiter with no
time passing (every call sees the same clock reading `now`). -/
def allowIter (R : ℚ) (B : ℕ) (key : String) (now : ℚ) : ℕ → RateLimiter
  | 0 => newRateLimiter R B
  | n + 1 => ((allowIter R B key now n).Allow key now).1

/-- A sequence of `Allow` calls, each a `(key, clock-reading)` pair. -/
def runCalls (rl : RateLimiter) : List (String × ℚ) → RateLimiter
  | [] => rl
  | (k, t) :: rest => runCalls (rl.Allow k t).1 rest

/-- Well-formedness of the limiter at clock reading `t`: every bucket's
token count lies in `[0, burst]` and its `lastSeen` stamp is not in the
future. -/
def RateLimiter.WF (rl : RateLimiter) (t : ℚ) : Prop :=
  ∀ p ∈ rl.buckets, 0 ≤ p.2.tokens ∧ p.2.tokens ≤ (rl.burst : ℚ) ∧ p.2.lastSeen ≤ t

/-- The bucket invariant of spec §3: every stored token count lies in the
closed interval `[0, B]`. -/
def bucketsInRange (rl : RateLimiter) (B : ℕ) : Prop :=
  ∀ p ∈ rl.buckets, 0 ≤ p.2.tokens ∧ p.2.tokens ≤ (B : ℚ)

/-! ### Backend registry

Source: `internal/backend/backend.go`.  A `Backend` is identified by its
`Name()`; the `id` field stands for the adapter instance's identity so
that distinct adapters sharing a name can be told apart. -/

/-- An adapter instance as the registry sees it: its `Name()` plus an
instance identity. -/
structure Backend where
  name : String
  id : ℕ
deriving DecidableEq, Repr

/-- The error of `Registry.Get`: `fmt.Errorf("%w: %s", ErrBackendNotFound, name)`,
i.e. an error wrapping `ErrBackendNotFound` and carrying the missing name. -/
inductive RegError where
  | notFound (name : String)
deriving DecidableEq, Repr

/-- The registry: named backends plus the primary designation. -/
structure Registry where
  backends : List (String × Backend)
  primary : String
deriving DecidableEq, Repr

/-- `NewRegistry()`. -/
def newRegistry : Registry := { backends := [], primary := "" }

/-- `(*Registry).Register(b)`: `backends[b.Name()] = b`; the first-ever
registration (detected by `primary == ""`) becomes primary. -/
def Registry.Register (r : Registry) (b : Backend) : Registry :=
  { backends := assocSet r.backends b.name b,
    primary := if r.primary = "" then b.name else r.primary }

/-- `(*Registry).Get(name)`: empty name resolves to the primary; a missing
entry yields an error wrapping `ErrBackendNotFound`. -/
def Registry.Get (r : Registry) (name : String) : Except RegError Backend :=
  let n := if name = "" then r.primary else name
  match assocLookup r.backends n with
  | some b => Except.ok b
  | none => Except.error (RegError.notFound n)

/-- `(*Registry).Primary()` is sugar for `Get("")`. -/
def Registry.Primary (r : Registry) : Except RegError Backend :=
  r.Get ""

example : newRegistry.Primary = Except.error (RegError.notFound "") := rfl

/-! ### API errors and the authentication middleware

Source: `internal/apierror/error.go` and `internal/middleware/auth.go`.
Go's zero-valued `Code`/`Param` fields (serialised with `omitempty`) are
modelled as `""`. -/

/-- `apierror.Error`: status, message, OpenAI error type, optional code
and parameter name. -/
structure ApiError where
  status : ℕ
  message : String
  type : String
  code : String
  param : String
deriving DecidableEq, Repr

/-- `apierror.InvalidRequest`. -/
def invalidRequest (msg : String) : ApiError :=
  { status := 400, message := msg, type := "invalid_request_error", code := "", param := "" }

/-- `apierror.InvalidParam`. -/
def invalidParam (param msg : String) : ApiError :=
  { status := 400, message := msg, type := "invalid_request_error", code := "", param := param }

/-- `apierror.Unauthorized`. -/
def unauthorized (msg : String) : ApiError :=
  { status := 401, message := msg, type := "authentication_error", code := "invalid_api_key",
    param := "" }

/-- `apierror.RateLimited`. -/
def rateLimited : ApiError :=
  { status := 429, message := "Rate limit exceeded. Please retry after a brief wait.",
    type := "rate_limit_error", code := "rate_limit_exceeded", param := "" }

/-- `apierror.BackendUnavailable`. -/
def backendUnavailable (backend : String) : ApiError :=
  { status := 503, message := "Backend " ++ backend ++ " is currently unavailable.",
    type := "backend_error", code := "backend_unavailable", param := "" }

/-- `apierror.Internal`. -/
def internalError (msg : String) : ApiError :=
  { status := 500, message := msg, type := "server_error", code := "", param := "" }

/-- Go's `strings.TrimSpace` on a byte string: whitespace stripped from
both ends. -/
def trimSpace (l : List Char) : List Char :=
  ((l.dropWhile Char.isWhitespace).reverse.dropWhile Char.isWhitespace).reverse

/-- `extractBearerToken`: the `Authorization` header value as a byte
string (Go's `Header.Get` yields `""` — here `[]` — when the header is
absent).  `strings.HasPrefix(h, "Bearer ")` is `h.take 7 = "Bearer
".toList` and the slice `h[len(prefix):]` is `h.drop 7`.  Empty header,
non-`"Bearer "`-prefixed header, and empty-after-trim token all fail. -/
def extractBearerToken (h : List Char) : Option (List Char) :=
  if h = [] then none
  else if ¬ (h.take 7 = "Bearer ".toList) then none
  else
    let token := trimSpace (h.drop 7)
    if token = [] then none else some token

/-- The `Auth` middleware's decision, given the key store's accepted set
(`KeyStore.Validate` is membership in the loaded key set): either the
`401` the middleware writes, or the key it places into the request
context. -/
def authCheck (keys : List (List Char)) (h : List Char) : Except ApiError (List Char) :=
  match extractBearerToken h with
  | none =>
      Except.error (unauthorized "Missing or malformed Authorization header. Expected: Bearer <api_key>")
  | some key =>
      if key ∈ keys then Except.ok key
      else Except.error (unauthorized "Invalid API key.")

/-! ### The canonical-log credential mask

Source: `maskKey` in `internal/middleware/logging.go`.  Go strings are
byte strings and `len`/slicing are byte-based; keys are modelled as the
list of their bytes (`List Char`, one `Char` per byte). -/

/-- `maskKey`: keys of (byte-)length at most 8 collapse to `"***"`;
longer keys keep exactly their last 8 bytes behind `"..."`. -/
def maskKey (key : List Char) : List Char :=
  if key.length ≤ 8 then "***".toList
  else "...".toList ++ key.drop (key.length - 8)

/-! ### The chat-completions handler

Source: `ChatCompletions` in `internal/handler/chat.go`.  The JSON body
is modelled post-decoding (`Except String _` carries the decoder error),
and what the handler does is reified into `ChatOutcome`: either an error
response written before any backend is touched, or the invocation of a
backend (the `handleStream`/`handleJSON` split on `req.Stream`). -/

/-- The fields of `backend.Message` the gateway itself reads. -/
structure Message where
  role : String
  content : String
deriving DecidableEq, Repr

/-- The fields of `backend.ChatRequest` the handler branches on. -/
structure ChatRequest where
  model : String
  messages : List Message
  stream : Bool
deriving DecidableEq, Repr

/-- What `ChatCompletions` does with a request: write a client-facing
error, or hand the request to a backend. -/
inductive ChatOutcome where
  | clientError (e : ApiError)
  | backendInvoked (b : Backend) (stream : Bool)
deriving DecidableEq, Repr

/-- `ChatCompletions(reg, logger)`: decode, reject empty `messages`,
resolve the primary backend, then dispatch on the stream flag. -/
def ChatCompletions (reg : Registry) (body : Except String ChatRequest) : ChatOutcome :=
  match body with
  | Except.error e => ChatOutcome.clientError (invalidRequest ("Invalid JSON in request body: " ++ e))
  | Except.ok req =>
      if req.messages.length = 0 then
        ChatOutcome.clientError (invalidParam "messages" "messages is required and must not be empty")
      else
        match reg.Primary with
        | Except.error _ => ChatOutcome.clientError (backendUnavailable "default")
        | Except.ok b => ChatOutcome.backendInvoked b req.stream

/-! ### The protected middleware pipeline

Source: `middleware.Chain` (`internal/middleware/middleware.go`) and the
`protected` stack of `internal/server/server.go`:
`RequestID → Recover → Metrics → Logging → Auth → RateLimit → route`.

A handler takes the trace accumulated so far and returns the request's
outcome — the status it wrote, or the fact that it panicked — together
with the updated trace.  Go's panic unwinding is explicit: a middleware
whose inner handler panicked executes none of its post-`ServeHTTP` code
(neither `Logging` nor `Metrics` defers its observation), and only
`Recover`'s deferred function turns the panic into a 500 response. -/

/-- A request's outcome as seen by one nesting level of the chain: the
status captured by that level's `statusWriter`, or a propagating panic. -/
inductive Outcome where
  | ok (status : ℕ)
  | panicked
deriving DecidableEq, Repr

/-- Observable per-request events: statuses recorded by the `Metrics`
counter, statuses carried by canonical `"request"` log lines, and
whether `Recover` logged a recovered panic. -/
structure Trace where
  metricStatuses : List ℕ
  logStatuses : List ℕ
  panicLogged : Bool
deriving DecidableEq, Repr

/-- The trace at the start of a request. -/
def Trace.empty : Trace :=
  { metricStatuses := [], logStatuses := [], panicLogged := false }

/-- An `http.Handler`, reduced to its observable effect. -/
def Handler : Type := Trace → Outcome × Trace

/-- `middleware.Chain`: the first middleware listed is outermost. -/
def Chain (h : Handler) (mw : List (Handler → Handler)) : Handler :=
  mw.foldr (fun m acc => m acc) h

/-- `RequestID()`: context/header bookkeeping only; no trace event. -/
def RequestID (next : Handler) : Handler := next

/-- `Recover(logger)`: its deferred function catches a propagating panic,
logs it (not a canonical log line) and writes the 500. -/
def Recover (next : Handler) : Handler := fun tr =>
  match next tr with
  | (Outcome.ok s, tr') => (Outcome.ok s, tr')
  | (Outcome.panicked, tr') => (Outcome.ok 500, { tr' with panicLogged := true })

/-- `Metrics()`: records the captured status after `next.ServeHTTP`
returns; a panic unwinds past the recording. -/
def Metrics (next : Handler) : Handler := fun tr =>
  match next tr with
  | (Outcome.ok s, tr') => (Outcome.ok s, { tr' with metricStatuses := tr'.metricStatuses ++ [s] })
  | (Outcome.panicked, tr') => (Outcome.panicked, tr')

/-- `Logging(logger)`: emits the canonical log line with the captured
status after `next.ServeHTTP` returns; a panic unwinds past the emit. -/
def Logging (next : Handler) : Handler := fun tr =>
  match next tr with
  | (Outcome.ok s, tr') => (Outcome.ok s, { tr' with logStatuses := tr'.logStatuses ++ [s] })
  | (Outcome.panicked, tr') => (Outcome.panicked, tr')

/-- `Auth(ks)`: writes the 401 itself (never panics) or passes through. -/
def Auth (authOk : Bool) (next : Handler) : Handler := fun tr =>
  if authOk then next tr else (Outcome.ok 401, tr)

/-- `RateLimit(rl)`: writes the 429 itself (never panics) or passes
through. -/
def RateLimit (rlOk : Bool) (next : Handler) : Handler := fun tr =>
  if rlOk then next tr else (Outcome.ok 429, tr)

/-- The `protected` stack of `server.New`, in its exact order. -/
def protectedPipeline (authOk rlOk : Bool) (route : Handler) : Handler :=
  Chain route [RequestID, Recover, Metrics, Logging, Auth authOk, RateLimit rlOk]

/-! ### The streaming relay

Source: the SSE read loop of `(*MLX).ChatCompletionStream` in
`internal/backend/mlx.go` feeding the `send` closure of `handleStream`
in `internal/handler/chat.go`.  Wire data is `List Char` (one `Char`
per byte).  `strings.HasPrefix(line, "data: ")` is `line.take 6 =
dataMark`, and `strings.TrimPrefix` is `line.drop 6`. -/

/-- The bytes of the SSE `"data: "` marker. -/
def dataMark : List Char := "data: ".toList

/-- The bytes of the `"[DONE]"` sentinel payload. -/
def doneMark : List Char := "[DONE]".toList

/-- The `send` closure of `handleStream`, cancellation aside: what it
writes to the client for one payload handed up by the adapter. -/
def sseWrite (data : List Char) : List Char :=
  if data = doneMark then "data: [DONE]\n\n".toList
  else "data: ".toList ++ data ++ "\n\n".toList

/-- The adapter's scan loop composed with `send`, with the request
context never cancelled: the list of client writes, in order.  A
non-`data: ` line is skipped; a `data: [DONE]` line is forwarded and the
loop breaks; any other `data: ` line's payload is passed through
verbatim. -/
def streamRelay : List (List Char) → List (List Char)
  | [] => []
  | line :: rest =>
      if line.take 6 = dataMark then
        let data := line.drop 6
        if data = doneMark then [sseWrite doneMark]
        else sseWrite data :: streamRelay rest
      else streamRelay rest

/-- How a streaming call ends: the adapter returned `nil` (scanner
exhausted or `[DONE]` forwarded), or the sink's context error aborted
it. -/
inductive StreamResult where
  | completed
  | canceled
deriving DecidableEq, Repr

/-- The scan loop composed with `send` under an explicit cancellation
schedule: `cancelled i` is whether `r.Context().Err()` is non-nil at the
`i`-th invocation of `send` (0-based, counted over the whole stream).
`send` checks the context before writing anything; on cancellation it
returns the context's error without writing, and the adapter stops
reading and returns that error. -/
def relayRun (cancelled : ℕ → Bool) : ℕ → List (List Char) → List (List Char) × StreamResult
  | _, [] => ([], StreamResult.completed)
  | i, line :: rest =>
      if line.take 6 = dataMark then
        let data := line.drop 6
        if cancelled i then ([], StreamResult.canceled)
        else if data = doneMark then ([sseWrite doneMark], StreamResult.completed)
        else
          let r := relayRun cancelled (i + 1) rest
          (sseWrite data :: r.1, r.2)
      else relayRun cancelled i rest

/-! ### Theorems -/

theorem allow_same_now (bs : List (String × Bucket)) (R : ℚ) (B : ℕ) (key : String)
    (now q : ℚ)
    (hb : assocLookup bs key = some { tokens := q, lastSeen := now } ∨
          (assocLookup bs key = none ∧ q = (B : ℚ)))
    (hqB : q ≤ (B : ℚ)) :
    RateLimiter.Allow { buckets := bs, rate := R, burst := B } key now =
      if q < 1 then
        ({ buckets := assocSet bs key { tokens := q, lastSeen := now }, rate := R, burst := B },
         0, false)
      else
        ({ buckets := assocSet bs key { tokens := q - 1, lastSeen := now }, rate := R, burst := B },
         ratTrunc (q - 1), true) := by
  have hmin : mathMin (B : ℚ) q = q := by
    rw [mathMin_eq_min, min_eq_right hqB]
  rcases hb with hb | ⟨hb, hq⟩
  · simp only [RateLimiter.Allow, hb, sub_self, zero_mul, add_zero, hmin]
  · subst hq
    simp only [RateLimiter.Allow, hb, sub_self, zero_mul, add_zero, hmin]

theorem allowIter_eq (R now : ℚ) (B : ℕ) (key : String) :
    ∀ k : ℕ, k ≤ B →
      allowIter R B key now k =
        { buckets :=
            if k = 0 then []
            else [(key, { tokens := (B : ℚ) - k, lastSeen := now })],
          rate := R, burst := B } := by
  intro k
  induction k with
  | zero => intro _; simp [allowIter, newRateLimiter]
  | succ k ih =>
      intro hk
      have hkB : k ≤ B := Nat.le_of_succ_le hk
      have hq1 : (1 : ℚ) ≤ (B : ℚ) - k := by
        have : ((k : ℚ)) + 1 ≤ (B : ℚ) := by exact_mod_cast hk
        linarith
      have hqB : (B : ℚ) - k ≤ (B : ℚ) := by
        have : (0 : ℚ) ≤ (k : ℚ) := by positivity
        linarith
      rw [allowIter, ih hkB]
      by_cases hk0 : k = 0
      · subst hk0
        rw [if_pos rfl]
        rw [allow_same_now [] R B key now ((B : ℚ) - 0)
              (Or.inr ⟨rfl, by norm_num⟩) hqB]
        rw [if_neg (by linarith)]
        simp only [assocSet]
        norm_num
      · rw [if_neg hk0]
        rw [allow_same_now [(key, { tokens := (B : ℚ) - k, lastSeen := now })] R B key now
              ((B : ℚ) - k) (Or.inl (by simp [assocLookup])) hqB]
        rw [if_neg (by linarith)]
        simp only [assocSet, if_pos rfl]
        norm_num
        ring

theorem allow_step_lt (R now : ℚ) (B k : ℕ) (key : String) (hk : k < B) :
    (allowIter R B key now k).Allow key now =
      ({ buckets := [(key, { tokens := (B : ℚ) - (k + 1), lastSeen := now })],
         rate := R, burst := B },
       (B : ℤ) - 1 - k, true) := by
  have hkB : k ≤ B := Nat.le_of_lt hk
  have hq1 : (1 : ℚ) ≤ (B : ℚ) - k := by
    have : ((k : ℚ)) + 1 ≤ (B : ℚ) := by exact_mod_cast hk
    linarith
  have hqB : (B : ℚ) - k ≤ (B : ℚ) := by
    have : (0 : ℚ) ≤ (k : ℚ) := by positivity
    linarith
  rw [allowIter_eq R now B key k hkB]
  by_cases hk0 : k = 0
  · subst hk0
    rw [if_pos rfl]
    rw [allow_same_now [] R B key now ((B : ℚ) - 0) (Or.inr ⟨rfl, by norm_num⟩) hqB]
    rw [if_neg (by linarith)]
    rw [ratTrunc_eq_floor _ (by linarith)]
    have hfl : ⌊(B : ℚ) - 0 - 1⌋ = (B : ℤ) - 1 - 0 := by
      have : (B : ℚ) - 0 - 1 = (((B : ℤ) - 1 - 0 : ℤ) : ℚ) := by push_cast; ring
      rw [this, Int.floor_intCast]
    rw [hfl]
    simp only [assocSet]
    norm_num
  · rw [if_neg hk0]
    rw [allow_same_now [(key, { tokens := (B : ℚ) - k, lastSeen := now })] R B key now
          ((B : ℚ) - k) (Or.inl (by simp [assocLookup])) hqB]
    rw [if_neg (by linarith)]
    rw [ratTrunc_eq_floor _ (by linarith)]
    have hfl : ⌊(B : ℚ) - k - 1⌋ = (B : ℤ) - 1 - k := by
      have : (B : ℚ) - k - 1 = (((B : ℤ) - 1 - k : ℤ) : ℚ) := by push_cast; ring
      rw [this, Int.floor_intCast]
    rw [hfl]
    simp only [assocSet, if_pos rfl]
    norm_num
    ring

theorem allow_step_exhausted (R now : ℚ) (B : ℕ) (key : String) :
    (allowIter R B key now B).Allow key now =
      ({ buckets := [(key, { tokens := (B : ℚ) - B, lastSeen := now })],
         rate := R, burst := B },
       0, false) := by
  rw [allowIter_eq R now B key B (le_refl B)]
  by_cases hB0 : B = 0
  · subst hB0
    rw [if_pos rfl]
    rw [allow_same_now [] R 0 key now ((0 : ℚ) - 0) (Or.inr ⟨rfl, by norm_num⟩) (by norm_num)]
    rw [if_pos (by norm_num)]
    simp [assocSet]
  · rw [if_neg hB0]
    rw [allow_same_now [(key, { tokens := (B : ℚ) - B, lastSeen := now })] R B key now
          ((B : ℚ) - B) (Or.inl (by simp [assocLookup])) (by norm_num)]
    rw [if_pos (by norm_num)]
    simp [assocSet]

theorem allow_refines_spec (rl : RateLimiter) (key : String) (now : ℚ) :
    rl.Allow key now = specAllow rl key now := by
  simp only [RateLimiter.Allow, specAllow, mathMin_eq_min]
  split_ifs with h
  · rfl
  · rw [ratTrunc_eq_floor]
    have := not_lt.1 h
    linarith

/-- C1: `Allow` implements exactly the token-bucket algorithm of spec §4.1
(it agrees everywhere with the algorithm transcribed from the spec's own
words); consequently a never-seen credential's first check under burst
`B ≥ 1` is permitted with `B - 1` remaining, each of the first `B`
immediate checks for one credential is permitted (the `(k+1)`-st leaving
`B - 1 - k`), and the `(B+1)`-st immediate check is denied with
`(0, false)`. -/
theorem c1_allow_token_bucket :
    (∀ (rl : RateLimiter) (key : String) (now : ℚ),
        rl.Allow key now = specAllow rl key now) ∧
    (∀ (R now : ℚ) (B : ℕ) (key : String), 1 ≤ B →
        ((newRateLimiter R B).Allow key now).2 = ((B : ℤ) - 1, true)) ∧
    (∀ (R now : ℚ) (B k : ℕ) (key : String), k < B →
        ((allowIter R B key now k).Allow key now).2 = ((B : ℤ) - 1 - (k : ℤ), true)) ∧
    (∀ (R now : ℚ) (B : ℕ) (key : String),
        ((allowIter R B key now B).Allow key now).2 = (0, false)) := by
  refine ⟨allow_refines_spec, ?_, ?_, ?_⟩
  · intro R now B key hB
    have h0 : (0 : ℕ) < B := hB
    have := allow_step_lt R now B 0 key h0
    rw [show newRateLimiter R B = allowIter R B key now 0 from rfl, this]
    norm_num
  · intro R now B k key hk
    rw [allow_step_lt R now B k key hk]
  · intro R now B key
    rw [allow_step_exhausted R now B key]

theorem c1_allow_token_bucket_witness :
    ((newRateLimiter 10 2).Allow "k" 0 = specAllow (newRateLimiter 10 2) "k" 0) ∧
    ((newRateLimiter 10 2).Allow "k" 0).2 = ((2 : ℤ) - 1, true) ∧
    ((allowIter 10 2 "k" 0 1).Allow "k" 0).2 = ((2 : ℤ) - 1 - ((1 : ℕ) : ℤ), true) ∧
    ((allowIter 10 2 "k" 0 2).Allow "k" 0).2 = (0, false) :=
  ⟨c1_allow_token_bucket.1 (newRateLimiter 10 2) "k" 0,
   c1_allow_token_bucket.2.1 10 0 2 "k" (by norm_num),
   c1_allow_token_bucket.2.2.1 10 0 2 1 "k" (by norm_num),
   c1_allow_token_bucket.2.2.2 10 0 2 "k"⟩

theorem allow_result_form (rl : RateLimiter) (key : String) (now : ℚ) :
    ∃ nb : Bucket, (rl.Allow key now).1 = { rl with buckets := assocSet rl.buckets key nb } := by
  simp only [RateLimiter.Allow]
  split_ifs <;> exact ⟨_, rfl⟩

theorem allow_preserves_WF (rl : RateLimiter) (key : String) (t t' : ℚ)
    (hrate : 0 ≤ rl.rate) (hwf : rl.WF t) (ht : t ≤ t') :
    ((rl.Allow key t').1).WF t' := by
  rcases hl : assocLookup rl.buckets key with _ | b₀
  case none =>
    have h0 : (0 : ℚ) ≤ (rl.burst : ℚ) := by positivity
    simp only [RateLimiter.Allow, hl]
    have hmin0 : (0 : ℚ) ≤ mathMin (rl.burst : ℚ) ((rl.burst : ℚ) + (t' - t') * rl.rate) := by
      rw [mathMin_eq_min]
      exact le_min h0 (by simp [h0])
    have hminB : mathMin (rl.burst : ℚ) ((rl.burst : ℚ) + (t' - t') * rl.rate) ≤ (rl.burst : ℚ) := by
      rw [mathMin_eq_min]; exact min_le_left _ _
    split_ifs with hc
    · intro p hp
      rcases mem_assocSet _ _ _ p hp with rfl | hp'
      · exact ⟨hmin0, hminB, le_refl _⟩
      · obtain ⟨h1, h2, h3⟩ := hwf p hp'
        exact ⟨h1, h2, le_trans h3 ht⟩
    · intro p hp
      rcases mem_assocSet _ _ _ p hp with rfl | hp'
      · exact ⟨sub_nonneg.2 (not_lt.1 hc), by dsimp only; linarith, le_refl _⟩
      · obtain ⟨h1, h2, h3⟩ := hwf p hp'
        exact ⟨h1, h2, le_trans h3 ht⟩
  case some =>
    obtain ⟨hb1, hb2, hb3⟩ := hwf (key, b₀) (assocLookup_mem _ _ _ hl)
    have hb3' : b₀.lastSeen ≤ t' := le_trans hb3 ht
    have helapsed : (0 : ℚ) ≤ (t' - b₀.lastSeen) * rl.rate :=
      mul_nonneg (by linarith) hrate
    simp only [RateLimiter.Allow, hl]
    have hmin0 : (0 : ℚ) ≤ mathMin (rl.burst : ℚ) (b₀.tokens + (t' - b₀.lastSeen) * rl.rate) := by
      rw [mathMin_eq_min]
      exact le_min (by positivity) (by linarith)
    have hminB : mathMin (rl.burst : ℚ) (b₀.tokens + (t' - b₀.lastSeen) * rl.rate) ≤ (rl.burst : ℚ) := by
      rw [mathMin_eq_min]; exact min_le_left _ _
    split_ifs with hc
    · intro p hp
      rcases mem_assocSet _ _ _ p hp with rfl | hp'
      · exact ⟨hmin0, hminB, le_refl _⟩
      · obtain ⟨h1, h2, h3⟩ := hwf p hp'
        exact ⟨h1, h2, le_trans h3 ht⟩
    · intro p hp
      rcases mem_assocSet _ _ _ p hp with rfl | hp'
      · exact ⟨sub_nonneg.2 (not_lt.1 hc), by dsimp only; linarith, le_refl _⟩
      · obtain ⟨h1, h2, h3⟩ := hwf p hp'
        exact ⟨h1, h2, le_trans h3 ht⟩

theorem allow_rate_burst (rl : RateLimiter) (key : String) (now : ℚ) :
    ((rl.Allow key now).1).rate = rl.rate ∧ ((rl.Allow key now).1).burst = rl.burst := by
  obtain ⟨nb, hnb⟩ := allow_result_form rl key now
  rw [hnb]
  exact ⟨rfl, rfl⟩

theorem runCalls_WF (calls : List (String × ℚ)) :
    ∀ (rl : RateLimiter) (t : ℚ), 0 ≤ rl.rate → rl.WF t →
      List.Chain (· ≤ ·) t (calls.map Prod.snd) →
      ∃ t', (runCalls rl calls).WF t' := by
  induction calls with
  | nil =>
      intro rl t _ hwf _
      exact ⟨t, hwf⟩
  | cons c rest ih =>
      obtain ⟨k, t₁⟩ := c
      intro rl t hr hwf hch
      rw [List.map_cons] at hch
      cases hch with
      | cons hle hch' =>
          rw [runCalls]
          refine ih _ t₁ ?_ (allow_preserves_WF rl k t t₁ hr hwf hle) hch'
          rw [(allow_rate_burst rl k t₁).1]
          exact hr

theorem runCalls_burst (calls : List (String × ℚ)) :
    ∀ rl : RateLimiter, (runCalls rl calls).burst = rl.burst := by
  induction calls with
  | nil => intro rl; rfl
  | cons c rest ih =>
      obtain ⟨k, t₁⟩ := c
      intro rl
      rw [runCalls, ih, (allow_rate_burst rl k t₁).2]

/-- C8: over any sequence of `Allow` calls with non-decreasing clock
readings and a non-negative refill rate, every bucket's token count stays
in the closed interval `[0, burst]`; tokens change only inside `Allow`
itself (lazy refill at check time — `runCalls` is the complete evolution
of the bucket map, with no background refill step). -/
theorem c8_bucket_invariant (R : ℚ) (B : ℕ) (calls : List (String × ℚ))
    (hR : 0 ≤ R) (hmono : List.Chain' (· ≤ ·) (calls.map Prod.snd)) :
    ∀ p ∈ (runCalls (newRateLimiter R B) calls).buckets,
      0 ≤ p.2.tokens ∧ p.2.tokens ≤ (B : ℚ) := by
  have hburst := runCalls_burst calls (newRateLimiter R B)
  cases calls with
  | nil =>
      intro p hp
      simp [runCalls, newRateLimiter] at hp
  | cons c rest =>
      obtain ⟨k, t₁⟩ := c
      have hch : List.Chain (· ≤ ·) t₁ (((k, t₁) :: rest).map Prod.snd) := by
        rw [List.map_cons]
        exact List.Chain.cons (le_refl t₁) (by rw [List.map_cons] at hmono; exact hmono)
      have hwf0 : (newRateLimiter R B).WF t₁ := by
        intro p hp
        simp [newRateLimiter] at hp
      obtain ⟨t', hwf⟩ := runCalls_WF ((k, t₁) :: rest) (newRateLimiter R B) t₁ hR hwf0 hch
      intro p hp
      obtain ⟨h1, h2, _⟩ := hwf p hp
      rw [hburst] at h2
      exact ⟨h1, h2⟩

theorem c8_bucket_invariant_witness :
    bucketsInRange (runCalls (newRateLimiter 3 2) [("a", 0), ("a", 0), ("a", 1), ("b", 1)]) 2 :=
  c8_bucket_invariant 3 2 [("a", 0), ("a", 0), ("a", 1), ("b", 1)] (by norm_num)
    (by norm_num [List.chain'_cons])

theorem allow_snd_congr (rl₁ rl₂ : RateLimiter) (key : String) (now : ℚ)
    (hr : rl₁.rate = rl₂.rate) (hb : rl₁.burst = rl₂.burst)
    (hl : assocLookup rl₁.buckets key = assocLookup rl₂.buckets key) :
    (rl₁.Allow key now).2 = (rl₂.Allow key now).2 := by
  obtain ⟨bs₁, r₁, B₁⟩ := rl₁
  obtain ⟨bs₂, r₂, B₂⟩ := rl₂
  dsimp only at hr hb hl
  subst hr
  subst hb
  simp only [RateLimiter.Allow, hl]
  split_ifs <;> rfl

/-- C9: an `Allow` call for credential `key` leaves every other
credential's bucket untouched (same stored token count and `lastSeen`),
and consequently the outcome of any later `Allow` for another credential
is exactly what it would have been without the call. -/
theorem c9_frame_property (rl : RateLimiter) (key key' : String) (now now' : ℚ)
    (h : key' ≠ key) :
    assocLookup ((rl.Allow key now).1).buckets key' = assocLookup rl.buckets key' ∧
    (((rl.Allow key now).1).Allow key' now').2 = (rl.Allow key' now').2 := by
  obtain ⟨nb, hnb⟩ := allow_result_form rl key now
  have hlook : assocLookup ((rl.Allow key now).1).buckets key' = assocLookup rl.buckets key' := by
    rw [hnb]
    exact assocLookup_assocSet_ne rl.buckets key key' nb h
  refine ⟨hlook, ?_⟩
  exact allow_snd_congr _ _ key' now' (allow_rate_burst rl key now).1
    (allow_rate_burst rl key now).2 hlook

theorem c9_frame_property_witness :
    (assocLookup (((newRateLimiter 3 2).Allow "a" 0).1).buckets "b" =
      assocLookup (newRateLimiter 3 2).buckets "b") ∧
    ((((newRateLimiter 3 2).Allow "a" 0).1).Allow "b" 0).2 =
      ((newRateLimiter 3 2).Allow "b" 0).2 :=
  c9_frame_property (newRateLimiter 3 2) "a" "b" 0 0 (by decide)

/-- C4 counterexample: registering first an adapter named `""` and then one
named `"x"` makes `Get("")` return the second adapter, not the first —
`Register` re-assigns the primary whenever the stored primary is still
`""`, so the first-ever registration does not stay primary when its name
is empty. -/
theorem c4_registry_counterexample :
    ((newRegistry.Register { name := "", id := 0 }).Register { name := "x", id := 1 }).Get "" =
      Except.ok { name := "x", id := 1 } ∧
    ({ name := "x", id := 1 } : Backend) ≠ { name := "", id := 0 } := by
  refine ⟨rfl, by decide⟩

/-- C4 (amended): `Primary()` on an empty registry fails with the
not-found error; after `Register(a)` both `Get("")` and `Get(a.Name())`
return `a`; after a subsequent `Register(b)` under a different name,
`Get("")` still returns `a` provided `a`'s name is nonempty (an adapter
named `""` — excluded by startup config validation — would lose primary
status, see the counterexample); `Get(n)` for an unregistered nonempty
name `n` fails with an error wrapping `ErrBackendNotFound`; re-registering
an existing name replaces that entry. -/
theorem c4_registry_semantics :
    (newRegistry.Primary = Except.error (RegError.notFound "")) ∧
    (∀ a : Backend,
        (newRegistry.Register a).Get "" = Except.ok a ∧
        (newRegistry.Register a).Get a.name = Except.ok a) ∧
    (∀ a b : Backend, a.name ≠ "" → b.name ≠ a.name →
        ((newRegistry.Register a).Register b).Get "" = Except.ok a) ∧
    (∀ (r : Registry) (n : String), n ≠ "" → assocLookup r.backends n = none →
        r.Get n = Except.error (RegError.notFound n)) ∧
    (∀ (r : Registry) (a a' : Backend), a'.name = a.name →
        assocLookup ((r.Register a).Register a').backends a.name = some a') := by
  refine ⟨rfl, ?_, ?_, ?_, ?_⟩
  · intro a
    constructor
    · simp [Registry.Register, newRegistry, Registry.Get, assocSet, assocLookup]
    · simp [Registry.Register, newRegistry, Registry.Get, assocSet, assocLookup]
  · intro a b ha hb
    have hab : ¬ a.name = b.name := fun h => hb h.symm
    simp [Registry.Register, newRegistry, Registry.Get, assocSet, assocLookup, ha, hab]
  · intro r n hn hnone
    simp [Registry.Get, hn, hnone]
  · intro r a a' h
    dsimp only [Registry.Register]
    rw [h]
    exact assocLookup_assocSet_self _ _ _

theorem c4_registry_semantics_witness :
    ((newRegistry.Register { name := "m", id := 0 }).Get "" =
      Except.ok { name := "m", id := 0 } ∧
     (newRegistry.Register { name := "m", id := 0 }).Get "m" =
      Except.ok { name := "m", id := 0 }) ∧
    ((newRegistry.Register { name := "m", id := 0 }).Register { name := "o", id := 1 }).Get "" =
      Except.ok { name := "m", id := 0 } ∧
    newRegistry.Get "zzz" = Except.error (RegError.notFound "zzz") ∧
    assocLookup ((newRegistry.Register { name := "m", id := 0 }).Register
      { name := "m", id := 1 }).backends "m" = some { name := "m", id := 1 } :=
  ⟨⟨(c4_registry_semantics.2.1 { name := "m", id := 0 }).1,
    (c4_registry_semantics.2.1 { name := "m", id := 0 }).2⟩,
   c4_registry_semantics.2.2.1 { name := "m", id := 0 } { name := "o", id := 1 }
     (by decide) (by decide),
   c4_registry_semantics.2.2.2.1 newRegistry "zzz" (by decide) rfl,
   c4_registry_semantics.2.2.2.2 newRegistry { name := "m", id := 0 } { name := "m", id := 1 } rfl⟩

/-- C3 counterexample: with accepted key set `{"sk-good"}`, a request with
no `Authorization` header and a request with a well-formed header carrying
the wrong key both get a 401, but the two error values differ — the
malformed-header path says "Missing or malformed Authorization header.
Expected: Bearer <api_key>" while the wrong-key path says "Invalid API
key." — so the two responses are not the same and the failure modes are
distinguishable by message, contrary to the claim. -/
theorem c3_auth_uniformity_counterexample :
    authCheck ["sk-good".toList] "".toList =
      Except.error
        (unauthorized "Missing or malformed Authorization header. Expected: Bearer <api_key>") ∧
    authCheck ["sk-good".toList] "Bearer sk-bad".toList =
      Except.error (unauthorized "Invalid API key.") ∧
    unauthorized "Missing or malformed Authorization header. Expected: Bearer <api_key>" ≠
      unauthorized "Invalid API key." := by
  refine ⟨rfl, rfl, by decide⟩

/-- C3 (amended): every authentication failure carries the same status
(401), error type (`authentication_error`) and code (`invalid_api_key`),
and all malformed-header failures (absent header, non-`Bearer` scheme,
empty token) produce one identical response; but the wrong-key failure
carries a different message than the malformed-header one, so the
response is uniform in status/type/code only, not in message. -/
theorem c3_auth_uniformity :
    (∀ (keys : List (List Char)) (h₁ h₂ : List Char),
        extractBearerToken h₁ = none → extractBearerToken h₂ = none →
        authCheck keys h₁ = authCheck keys h₂) ∧
    (∀ (keys : List (List Char)) (h : List Char) (e : ApiError),
        authCheck keys h = Except.error e →
        e.status = 401 ∧ e.type = "authentication_error" ∧ e.code = "invalid_api_key") := by
  constructor
  · intro keys h₁ h₂ e₁ e₂
    simp only [authCheck, e₁, e₂]
  · intro keys h e he
    cases hx : extractBearerToken h with
    | none =>
        simp only [authCheck, hx, Except.error.injEq] at he
        subst he
        exact ⟨rfl, rfl, rfl⟩
    | some key =>
        simp only [authCheck, hx] at he
        by_cases hk : key ∈ keys
        · rw [if_pos hk] at he
          exact Except.noConfusion he
        · rw [if_neg hk] at he
          cases he
          exact ⟨rfl, rfl, rfl⟩

theorem c3_auth_uniformity_witness :
    authCheck ["sk-good".toList] "".toList = authCheck ["sk-good".toList] "Token abc".toList ∧
    ((unauthorized "Invalid API key.").status = 401 ∧
     (unauthorized "Invalid API key.").type = "authentication_error" ∧
     (unauthorized "Invalid API key.").code = "invalid_api_key") :=
  ⟨c3_auth_uniformity.1 ["sk-good".toList] "".toList "Token abc".toList rfl (by decide),
   c3_auth_uniformity.2 ["sk-good".toList] "Bearer sk-bad".toList
     (unauthorized "Invalid API key.") rfl⟩

/-- C10: the credential mask depends only on the key's (byte-)length class
and its last 8 bytes — every key of length at most 8 masks to the
constant `"***"`, and every longer key masks to `"..."` followed by
exactly its last 8 bytes (two long keys sharing a final 8-byte suffix
mask identically). -/
theorem c10_maskKey_lastEight :
    (∀ key : List Char, key.length ≤ 8 → maskKey key = "***".toList) ∧
    (∀ key : List Char, 8 < key.length →
        maskKey key = "...".toList ++ key.drop (key.length - 8) ∧
        (key.drop (key.length - 8)).length = 8) ∧
    (∀ k₁ k₂ : List Char, 8 < k₁.length → 8 < k₂.length →
        k₁.drop (k₁.length - 8) = k₂.drop (k₂.length - 8) →
        maskKey k₁ = maskKey k₂) := by
  refine ⟨?_, ?_, ?_⟩
  · intro key h
    rw [maskKey, if_pos h]
  · intro key h
    refine ⟨by rw [maskKey, if_neg (not_le.2 h)], ?_⟩
    rw [List.length_drop]
    omega
  · intro k₁ k₂ h₁ h₂ he
    rw [maskKey, if_neg (not_le.2 h₁), maskKey, if_neg (not_le.2 h₂), he]

theorem c10_maskKey_lastEight_witness :
    maskKey "short".toList = "***".toList ∧
    maskKey "sk-abcdefghij".toList =
      "...".toList ++ ("sk-abcdefghij".toList).drop ("sk-abcdefghij".toList.length - 8) :=
  ⟨c10_maskKey_lastEight.1 "short".toList (by decide),
   (c10_maskKey_lastEight.2.1 "sk-abcdefghij".toList (by decide)).1⟩

/-- C7: a decoded chat request with an empty `messages` array is answered
with the 400 `invalid_request_error` on parameter `"messages"`, and the
handler's outcome is never a backend invocation — the request is rejected
before any registered backend is touched. -/
theorem c7_empty_messages_rejected (reg : Registry) (req : ChatRequest)
    (h : req.messages = []) :
    ChatCompletions reg (Except.ok req) =
      ChatOutcome.clientError (invalidParam "messages" "messages is required and must not be empty") ∧
    (invalidParam "messages" "messages is required and must not be empty").status = 400 ∧
    (invalidParam "messages" "messages is required and must not be empty").type =
      "invalid_request_error" ∧
    (invalidParam "messages" "messages is required and must not be empty").param = "messages" ∧
    ∀ (b : Backend) (stream : Bool),
      ChatCompletions reg (Except.ok req) ≠ ChatOutcome.backendInvoked b stream := by
  have hc : ChatCompletions reg (Except.ok req) =
      ChatOutcome.clientError (invalidParam "messages" "messages is required and must not be empty") := by
    simp [ChatCompletions, h]
  refine ⟨hc, rfl, rfl, rfl, ?_⟩
  intro b stream
  rw [hc]
  exact fun hcontra => ChatOutcome.noConfusion hcontra

theorem c7_empty_messages_rejected_witness :
    ChatCompletions newRegistry (Except.ok { model := "m", messages := [], stream := false }) =
      ChatOutcome.clientError (invalidParam "messages" "messages is required and must not be empty") ∧
    ChatCompletions newRegistry (Except.ok { model := "m", messages := [], stream := false }) ≠
      ChatOutcome.backendInvoked { name := "x", id := 0 } false :=
  ⟨(c7_empty_messages_rejected newRegistry
      { model := "m", messages := [], stream := false } rfl).1,
   (c7_empty_messages_rejected newRegistry
      { model := "m", messages := [], stream := false } rfl).2.2.2.2
      { name := "x", id := 0 } false⟩

/-- Every request that completes without a panic gets exactly one metrics
update and exactly one canonical log line, both carrying the terminal
status the route handler wrote. -/
theorem protectedPipeline_normal_eval (s : ℕ) :
    protectedPipeline true true (fun tr => (Outcome.ok s, tr)) Trace.empty =
      (Outcome.ok s,
       { metricStatuses := [s], logStatuses := [s], panicLogged := false }) := rfl

/-- C2, evaluated at the failing input: when the route handler panics
below the protected stack of `server.New` (an authenticated, admitted
request), the recovered response has status 500, but the pipeline emits
no canonical log line and no metrics update for the request — the panic
unwinds past `Logging` and `Metrics` (neither defers its observation)
before the outermost `Recover` converts it, so the "exactly one log
line / one metrics update carrying the 500" the claim requires does not
happen. -/
theorem c2_panic_pipeline_eval :
    protectedPipeline true true (fun tr => (Outcome.panicked, tr)) Trace.empty =
      (Outcome.ok 500,
       { metricStatuses := [], logStatuses := [], panicLogged := true }) := rfl

theorem sseWrite_ne_done (d : List Char) (hd : d ≠ doneMark) :
    sseWrite d ≠ "data: [DONE]\n\n".toList := by
  rw [sseWrite, if_neg hd]
  intro hcontra
  apply hd
  have hsplit : "data: ".toList ++ (d ++ "\n\n".toList) =
      "data: ".toList ++ (doneMark ++ "\n\n".toList) := by
    rw [← List.append_assoc, hcontra]
    decide
  exact List.append_cancel_right (List.append_cancel_left hsplit)

/-- C5: the relay's client writes are exactly the verbatim pass-through of
the upstream `data: ` lines — a line without the `data: ` marker yields
no client event; a `data: <p>` line with `p ≠ [DONE]` yields exactly the
framed event `data: <p>\n\n` with the payload bytes unchanged; a
`data: [DONE]` line yields the literal terminal event `data: [DONE]\n\n`
and nothing after it; and over any upstream line list the terminal event
is written at most once. -/
theorem c5_stream_passthrough :
    (∀ (line : List Char) (rest : List (List Char)), line.take 6 ≠ dataMark →
        streamRelay (line :: rest) = streamRelay rest) ∧
    (∀ (p : List Char) (rest : List (List Char)), p ≠ doneMark →
        streamRelay ((dataMark ++ p) :: rest) =
          ("data: ".toList ++ p ++ "\n\n".toList) :: streamRelay rest) ∧
    (∀ rest : List (List Char),
        streamRelay ((dataMark ++ doneMark) :: rest) = ["data: [DONE]\n\n".toList]) ∧
    (∀ lines : List (List Char),
        (streamRelay lines).count ("data: [DONE]\n\n".toList) ≤ 1) := by
  have htake : ∀ p : List Char, (dataMark ++ p).take 6 = dataMark := by
    intro p
    rw [show (6 : ℕ) = dataMark.length from rfl]
    exact List.take_left dataMark p
  have hdrop : ∀ p : List Char, (dataMark ++ p).drop 6 = p := by
    intro p
    rw [show (6 : ℕ) = dataMark.length from rfl]
    exact List.drop_left dataMark p
  refine ⟨?_, ?_, ?_, ?_⟩
  · intro line rest h
    rw [streamRelay, if_neg h]
  · intro p rest hp
    rw [streamRelay, if_pos (htake p)]
    simp only [hdrop]
    rw [if_neg hp, sseWrite, if_neg hp]
  · intro rest
    rw [streamRelay, if_pos (htake doneMark)]
    simp only [hdrop]
    simp [sseWrite]
  · intro lines
    induction lines with
    | nil => simp [streamRelay]
    | cons line rest ih =>
        rw [streamRelay]
        by_cases h1 : line.take 6 = dataMark
        · rw [if_pos h1]
          by_cases h2 : line.drop 6 = doneMark
          · simp only [if_pos h2]
            exact le_trans (List.count_le_length _ _) (by simp)
          · simp only [if_neg h2]
            rw [List.count_cons]
            simp only [beq_iff_eq, sseWrite_ne_done (line.drop 6) h2, if_false]
            simpa using ih
        · rw [if_neg h1]
          exact ih

theorem c5_stream_passthrough_witness :
    streamRelay [": keepalive".toList] = streamRelay [] ∧
    streamRelay ((dataMark ++ "x".toList) :: []) =
      ("data: ".toList ++ "x".toList ++ "\n\n".toList) :: streamRelay [] ∧
    streamRelay ((dataMark ++ doneMark) :: ["data: after".toList]) =
      ["data: [DONE]\n\n".toList] :=
  ⟨c5_stream_passthrough.1 ": keepalive".toList [] (by decide),
   c5_stream_passthrough.2.1 "x".toList [] (by decide),
   c5_stream_passthrough.2.2.1 ["data: after".toList]⟩

theorem relayRun_bound (cancelled : ℕ → Bool) (k : ℕ)
    (hk : ∀ j, k ≤ j → cancelled j = true) :
    ∀ (lines : List (List Char)) (i : ℕ),
      ((relayRun cancelled i lines).1).length ≤ k - i ∧
      (k - i < (streamRelay lines).length →
        (relayRun cancelled i lines).2 = StreamResult.canceled) := by
  intro lines
  induction lines with
  | nil =>
      intro i
      constructor
      · simp [relayRun]
      · intro hcontra
        simp [streamRelay] at hcontra
  | cons line rest ih =>
      intro i
      by_cases h1 : line.take 6 = dataMark
      · by_cases hc : cancelled i = true
        · rw [relayRun]
          simp only [if_pos h1, if_pos hc]
          constructor
          · simp
          · intro _; trivial
        · have hik : i < k := by
            by_contra hik
            exact hc (hk i (by omega))
          rw [relayRun]
          simp only [if_pos h1, hc, if_false, Bool.false_eq_true]
          by_cases h2 : line.drop 6 = doneMark
          · simp only [if_pos h2]
            rw [streamRelay, if_pos h1, if_pos h2]
            constructor
            · simp
              omega
            · intro hcontra
              simp at hcontra
              omega
          · simp only [if_neg h2]
            rw [streamRelay, if_pos h1, if_neg h2]
            obtain ⟨ihl, ihr⟩ := ih (i + 1)
            constructor
            · simp only [List.length_cons]
              omega
            · intro hcontra
              simp only [List.length_cons] at hcontra
              exact ihr (by omega)
      · rw [relayRun]
        simp only [if_neg h1]
        rw [streamRelay, if_neg h1]
        exact ih i

/-- C6: once the inbound request's context is cancelled (the cancellation
schedule holds from send number `k` on), at most the `k` events already
relayed before cancellation are ever written to the client — no write
happens at or after cancellation — and whenever the upstream would still
have produced another event, the sink's context error propagates: the
adapter's streaming call stops reading and returns cancelled instead of
completing (the model is a total function, so the loop neither panics
nor hangs). -/
theorem c6_cancellation_propagates (cancelled : ℕ → Bool) (k : ℕ)
    (lines : List (List Char)) (hk : ∀ j, k ≤ j → cancelled j = true) :
    ((relayRun cancelled 0 lines).1).length ≤ k ∧
    (k < (streamRelay lines).length →
      (relayRun cancelled 0 lines).2 = StreamResult.canceled) := by
  have h := relayRun_bound cancelled k hk lines 0
  simpa using h

theorem c6_cancellation_propagates_witness :
    ((relayRun (fun _ => true) 0 ["data: hi".toList]).1).length ≤ 0 ∧
    (relayRun (fun _ => true) 0 ["data: hi".toList]).2 = StreamResult.canceled := by
  have h := c6_cancellation_propagates (fun _ => true) 0 ["data: hi".toList]
    (fun j hj => rfl)
  exact ⟨h.1, h.2 (by decide)⟩
